import Mathlib

/-!
Verification of the ledger settlement engine (`LedgerSettlementAgent.py`).

The engine is shallowly embedded: one `Txn` per input row, a `Row` for the
loaded row with its mutable `read`/`matched` flags, and explicit state
passing for the orchestrator.  Dates are modelled as `Option Int` (days);
an unparseable date is `none`, and every window comparison against `none`
is false, matching pandas `NaT` comparison semantics.  The per-attempt
`uuid4` settlement identifier is modelled as a stream `g : Nat → α`
indexed by the attempt counter; `run` instantiates it with the identity,
so group ids are the attempt indices.
-/

namespace Ledger

/-- One input transaction record, as produced by the external loader. -/
structure Txn where
  journal : String
  voucher : String
  amount : Int
  date : Option Int
  desc : String
  cost : String
  profit : String
  account : String
deriving DecidableEq, Repr

/-- A loaded ledger row: the transaction plus the derived `Type`,
the extracted description numbers and the two mutable flags. -/
structure Row where
  txn : Txn
  isDebit : Bool
  nums : List String
  matched : Bool
  read : Bool
deriving DecidableEq, Repr

instance : Inhabited Txn := ⟨⟨"", "", 0, none, "", "", "", ""⟩⟩

instance : Inhabited Row := ⟨⟨default, false, [], false, false⟩⟩

/-- Maximal digit runs of a character list (`re.findall` with a digit-run
pattern); `acc` holds the reversed current run. -/
def numRuns (acc : List Char) : List Char → List (List Char)
  | [] => if acc.isEmpty then [] else [acc.reverse]
  | c :: rest =>
    if c.isDigit then numRuns (c :: acc) rest
    else if acc.isEmpty then numRuns [] rest
    else acc.reverse :: numRuns [] rest

/-- All maximal digit runs of a description string. -/
def extractNumbers (s : String) : List String :=
  (numRuns [] s.toList).map fun cs => String.mk cs

/-- `leadsList a b` is true when `a` is an initial segment of `b`. -/
def leadsList : List Char → List Char → Bool
  | [], _ => true
  | _ :: _, [] => false
  | a :: as, b :: bs => a == b && leadsList as bs

/-- `subStr a b` is true when `a` occurs contiguously inside `b`
(Python `a in b` on strings, including equality and the empty string). -/
def subStr (a : List Char) : List Char → Bool
  | [] => leadsList a []
  | b :: bs => leadsList a (b :: bs) || subStr a bs

/-- String containment: `isSubstrOf a b` is Python `a in b`. -/
def isSubstrOf (a b : String) : Bool :=
  subStr a.toList b.toList

/-- Loading one row: `Type` is debit exactly when the amount is negative,
numbers are extracted from the description, both flags start false. -/
def loadRow (t : Txn) : Row :=
  ⟨t, decide (t.amount < 0), extractNumbers t.desc, false, false⟩

/-- `load_ledger`: load every input row. -/
def loadLedger (ts : List Txn) : List Row :=
  ts.map loadRow

/-- Row access by stable index (out-of-range reads give the default row,
which is never selected by any filter). -/
def rowAt (rows : List Row) (j : Nat) : Row :=
  rows.getD j default

/-- The row of the loaded input at index `j`. -/
def inputRow (ts : List Txn) (j : Nat) : Row :=
  rowAt (loadLedger ts) j

/-- Set the `Read` flag of row `i`. -/
def markRead (i : Nat) (rows : List Row) : List Row :=
  rows.set i { rowAt rows i with read := true }

/-- Set the `Matched` flag of row `i`. -/
def markMatched (i : Nat) (rows : List Row) : List Row :=
  rows.set i { rowAt rows i with matched := true }

/-- The date-window test of the candidate filter: both comparisons of the
source, false whenever either date is invalid (`NaT` semantics). -/
def dateWithin (dd cd : Option Int) (T : Int) : Bool :=
  match dd, cd with
  | some d, some c => decide (d - T ≤ c) && decide (c ≤ d + T)
  | _, _ => false

/-- The candidate-filter predicate for row `j` against a debit:
unread, unmatched, equal cost and profit centres, date in the window. -/
def candOK (rows : List Row) (T : Int) (debit : Row) (j : Nat) : Bool :=
  let r := rowAt rows j
  !r.read && !r.matched && (r.txn.cost == debit.txn.cost) &&
    (r.txn.profit == debit.txn.profit) && dateWithin debit.txn.date r.txn.date T

/-- Date sort key of a row (all candidates have parsed dates). -/
def dateKey (rows : List Row) (j : Nat) : Int :=
  ((rowAt rows j).txn.date).getD 0

/-- The candidate set of a debit: filtered row indices sorted ascending
by date (`sort_values` over the boolean-mask filter). -/
def candidateIdxs (rows : List Row) (T : Int) (debit : Row) : List Nat :=
  List.insertionSort (fun j k => dateKey rows j ≤ dateKey rows k)
    ((List.range rows.length).filter (candOK rows T debit))

/-- The candidate set built for the selected debit `i`: the debit is
marked read first, then the filter runs (lines 66 and 76–81). -/
def debitCands (T : Int) (rows : List Row) (i : Nat) : List Nat :=
  candidateIdxs (markRead i rows) T (rowAt rows i)

/-- Date order used to pick the earliest debit; an invalid date sorts
last (`na_position` default). -/
def debitDateLe (a b : Option Int) : Bool :=
  match a, b with
  | none, none => true
  | none, some _ => false
  | some _, none => true
  | some x, some y => decide (x ≤ y)

/-- Select the next debit of an account: earliest-dated unread
debit-typed row of that account, ties broken by original order. -/
def selectDebit (rows : List Row) (acct : String) : Option Nat :=
  ((List.range rows.length).filter fun j =>
      let r := rowAt rows j
      r.isDebit && (r.txn.account == acct) && !r.read).foldl
    (fun b j =>
      match b with
      | none => some j
      | some k =>
        if debitDateLe (rowAt rows k).txn.date (rowAt rows j).txn.date then some k
        else some j)
    none

/-- An output record of the engine; `src` is the stable identity of the
originating row (spec §3: `id`), carried for the statements below. -/
structure OutRec (α : Type) where
  journal : String
  voucher : String
  date : Option Int
  account : String
  cost : String
  profit : String
  desc : String
  amount : Int
  settlement : Option α
  src : Nat
deriving DecidableEq, Repr

instance : Inhabited (OutRec α) :=
  ⟨⟨"", "", none, "", "", "", "", 0, none, 0⟩⟩

/-- The record emitted for an attached candidate (lines 130–141): the
account and centre fields are the parameters of the call, i.e. the
debit's values. -/
def mkCandRec (acct cc pc : String) (gid : α) (r : Row) (j : Nat) : OutRec α :=
  ⟨r.txn.journal, r.txn.voucher, r.txn.date, acct, cc, pc, r.txn.desc,
    r.txn.amount, some gid, j⟩

/-- The record emitted for the debit of a group (lines 145–156). -/
def mkDebitRec (acct cc pc : String) (gid : α) (r : Row) (i : Nat) : OutRec α :=
  ⟨r.txn.journal, r.txn.voucher, r.txn.date, acct, cc, pc, r.txn.desc,
    r.txn.amount, some gid, i⟩

/-- The record emitted for an unsettled row (lines 166–177): its own
account and centres, empty settlement id. -/
def mkUnsRec (r : Row) (j : Nat) : OutRec α :=
  ⟨r.txn.journal, r.txn.voucher, r.txn.date, r.txn.account, r.txn.cost,
    r.txn.profit, r.txn.desc, r.txn.amount, none, j⟩

/-- The pairwise containment count of the scorer (line 119–120): ordered
pairs over the deduplicated token lists related by containment. -/
def overlapScore (A B : List String) : Nat :=
  ((A.dedup).flatMap fun a =>
    (B.dedup).filter fun b => isSubstrOf a b || isSubstrOf b a).length

/-- One update of the best-so-far pair (lines 116, 122–124): the
threshold is reset to `0` on every candidate, so it records the current
candidate exactly when its overlap is positive. -/
def scoreUpdate (overlap : Nat) (bidx : Option Nat) (j : Nat) : Nat × Option Nat :=
  if 0 < overlap then (overlap, some j) else (0, bidx)

/-- Engine state: the rows with their flags, the accumulated results and
the attempt counter feeding the settlement-id stream. -/
structure St (α : Type) where
  rows : List Row
  results : List (OutRec α)
  ctr : Nat

/-- The credit-matching loop of `match_credits_number` (lines 107–141):
iterates the candidate snapshot, skips rows matched in the snapshot or
outside the window, scores the rest and attaches every recorded best
pair.  Returns the updated rows, the records appended by this call and
the append-debit flag. -/
def matchLoop (T : Int) (acct cc pc : String) (gid : α) (debit : Row)
    (snap : List Row) :
    List Nat → List Row → List (OutRec α) → Bool → Option Nat →
      List Row × List (OutRec α) × Bool
  | [], rows, out, ad, _ => (rows, out, ad)
  | j :: rest, rows, out, ad, bidx =>
    let crow := rowAt snap j
    if crow.matched then
      matchLoop T acct cc pc gid debit snap rest rows out ad bidx
    else if !(dateWithin debit.txn.date crow.txn.date T) then
      matchLoop T acct cc pc gid debit snap rest rows out ad bidx
    else
      let overlap := overlapScore debit.nums crow.nums
      let p := scoreUpdate overlap bidx j
      if p.2.isSome && decide (0 < p.1) then
        let k := p.2.getD 0
        matchLoop T acct cc pc gid debit snap rest (markMatched k rows)
          (out ++ [mkCandRec acct cc pc gid (rowAt snap k) k]) true p.2
      else
        matchLoop T acct cc pc gid debit snap rest rows out ad p.2

/-- One debit attempt of `settle_ledger` (lines 64–83 plus the call into
`match_credits_number`): mark the debit read, build its candidates, run
the matching loop, then append the debit's own record when at least one
candidate was attached; the attempt counter always advances (a fresh
uuid is drawn per attempt). -/
def processDebit (g : Nat → α) (T : Int) (acct : String) (i : Nat)
    (st : St α) : St α :=
  let debit := rowAt st.rows i
  let rows1 := markRead i st.rows
  let gid := g st.ctr
  let cc := debit.txn.cost
  let pc := debit.txn.profit
  let cands := debitCands T st.rows i
  let res := matchLoop T acct cc pc gid debit rows1 cands rows1 [] false none
  let rows3 := if res.2.2 then markMatched i res.1 else res.1
  let outAdd :=
    if res.2.2 then res.2.1 ++ [mkDebitRec acct cc pc gid debit i]
    else res.2.1
  ⟨rows3, st.results ++ outAdd, st.ctr + 1⟩

/-- The per-account while loop of `settle_ledger`; `fuel` bounds the
iterations, and `rows.length` iterations always suffice because every
iteration marks one previously unread debit as read. -/
def accountLoop (g : Nat → α) (T : Int) (acct : String) :
    Nat → St α → St α
  | 0, st => st
  | Nat.succ fuel, st =>
    match selectDebit st.rows acct with
    | none => st
    | some i => accountLoop g T acct fuel (processDebit g T acct i st)

/-- Total order on strings by code points, for the account iteration
order of `groupby` (sorted keys). -/
def listLeB : List Char → List Char → Bool
  | [], _ => true
  | _ :: _, [] => false
  | a :: as, b :: bs =>
    if a.val < b.val then true
    else if b.val < a.val then false
    else listLeB as bs

/-- String order used to sort the account keys. -/
def strLeB (a b : String) : Bool :=
  listLeB a.toList b.toList

/-- The account keys of `groupby('MainAccount')`, sorted ascending. -/
def accountsOf (rows : List Row) : List String :=
  List.insertionSort (fun a b : String => strLeB a b = true)
    ((rows.map fun r => r.txn.account).dedup)

/-- `settle_ledger`: process every account in key order. -/
def settleLedger (g : Nat → α) (T : Int) (st : St α) : St α :=
  (accountsOf st.rows).foldl
    (fun s acct => accountLoop g T acct s.rows.length s) st

/-- `write_unsettled`: append every still-unmatched row, in original
record order, with an empty settlement id. -/
def writeUnsettled (st : St α) : St α :=
  { st with
    results := st.results ++
      ((List.range st.rows.length).filter fun j =>
        !(rowAt st.rows j).matched).map fun j => mkUnsRec (rowAt st.rows j) j }

/-- A full run of the engine with settlement-id stream `g`:
load, settle, append the unsettled rows. -/
def settleRun (g : Nat → α) (T : Int) (ts : List Txn) : List (OutRec α) :=
  (writeUnsettled (settleLedger g T ⟨loadLedger ts, [], 0⟩)).results

/-- The reference run: settlement ids are the attempt indices. -/
def run (T : Int) (ts : List Txn) : List (OutRec Nat) :=
  settleRun (fun n => n) T ts

/-- The engine state at the end of the settlement phase of `run`,
before the unsettled rows are appended. -/
def finalSt (T : Int) (ts : List Txn) : St Nat :=
  settleLedger (fun n => n) T ⟨loadLedger ts, [], 0⟩

/-- The records `write_unsettled` appends to a state. -/
def unsPart (st : St Nat) : List (OutRec Nat) :=
  ((List.range st.rows.length).filter fun j =>
    !(rowAt st.rows j).matched).map fun j => mkUnsRec (rowAt st.rows j) j

/-- The full qualification test the matching loop applies to a candidate
before attaching it: unmatched in the snapshot, inside the window, and a
strictly positive overlap with the debit. -/
def qual (T : Int) (debit : Row) (snap : List Row) (j : Nat) : Bool :=
  !(rowAt snap j).matched &&
    dateWithin debit.txn.date (rowAt snap j).txn.date T &&
    decide (0 < overlapScore debit.nums (rowAt snap j).nums)

/-- Transport an output record along a settlement-id map. -/
def mapG (g : α → β) (r : OutRec α) : OutRec β :=
  ⟨r.journal, r.voucher, r.date, r.account, r.cost, r.profit, r.desc,
    r.amount, r.settlement.map g, r.src⟩

/-- Forget the settlement identifier values, keeping only whether the
record is settled. -/
def eraseGuid (r : OutRec α) : OutRec Unit :=
  mapG (fun _ => ()) r

/-- The settlement id of the output row at position `i`, if that row
exists and is settled. -/
def groupOf (l : List (OutRec α)) (i : Nat) : Option α :=
  (l[i]?).bind fun r => r.settlement

/-- Output positions `i` and `j` carry the same settlement group. -/
def sameGroup (l : List (OutRec α)) (i j : Nat) : Prop :=
  groupOf l i ≠ none ∧ groupOf l i = groupOf l j

/-- The substring relation of the scorer, as a proposition. -/
def SubRel (a b : String) : Prop :=
  isSubstrOf a b = true ∨ isSubstrOf b a = true

instance (a b : String) : Decidable (SubRel a b) := by
  unfold SubRel; infer_instance

/-- Debit of account `A` (counterexample input). -/
def cexA : Txn := ⟨"j0", "v0", -1, some 0, "7", "", "", "A"⟩

/-- Credit of account `B` sharing the empty centres and the date window
of `cexA` (counterexample input). -/
def cexB : Txn := ⟨"j1", "v1", 1, some 0, "7", "", "", "B"⟩

/-- First debit (counterexample input for re-emission). -/
def cexD1 : Txn := ⟨"j0", "v0", -1, some 0, "1", "", "", "A"⟩

/-- Second debit, inside the window of `cexD1` and sharing token `1`
(counterexample input for re-emission). -/
def cexD2 : Txn := ⟨"j1", "v1", -1, some 3, "1", "", "", "A"⟩

/-- Credit inside the window of `cexD2` only (counterexample input). -/
def cexC : Txn := ⟨"j2", "v2", 1, some 6, "1", "", "", "A"⟩

/-- A lone debit whose own row passes every candidate condition except
the read flag (counterexample input for the self-inclusion claim). -/
def cexSelf : Txn := ⟨"j0", "v0", -1, some 0, "9", "", "", "A"⟩

/-- A credit with an unparseable date (witness input for the
invalid-date claim), next to a matching debit and credit. -/
def cexNoDate : Txn := ⟨"jN", "vN", 1, none, "9", "", "", "A"⟩

/-- Mark every row of `A` matched, in order. -/
def foldMark (A : List Nat) (rows : List Row) : List Row :=
  A.foldl (fun rs j => markMatched j rs) rows

/-- The candidates a debit attempt actually attaches: the candidate set
restricted to the loop's qualification test. -/
def attachedOf (T : Int) (rows : List Row) (i : Nat) : List Nat :=
  (debitCands T rows i).filter (qual T (rowAt rows i) (markRead i rows))

/-- The records one debit attempt appends: one record per attached
candidate, then the debit's record when anything was attached. -/
def blockOf (g : Nat → α) (T : Int) (acct : String) (i : Nat)
    (rows : List Row) (ctr : Nat) : List (OutRec α) :=
  (attachedOf T rows i).map
    (fun j => mkCandRec acct (rowAt rows i).txn.cost (rowAt rows i).txn.profit
      (g ctr) (rowAt (markRead i rows) j) j) ++
  (if (attachedOf T rows i).isEmpty then []
   else [mkDebitRec acct (rowAt rows i).txn.cost (rowAt rows i).txn.profit
     (g ctr) (rowAt rows i) i])

/-- The rows after one debit attempt: the debit is read, the attached
candidates are matched, and the debit is matched when anything was
attached. -/
def rowsAfter (T : Int) (rows : List Row) (i : Nat) : List Row :=
  let r2 := foldMark (attachedOf T rows i) (markRead i rows)
  if (attachedOf T rows i).isEmpty then r2 else markMatched i r2

/-- The immutable part of a row: the transaction, the derived type and
the extracted numbers agree.  The flags are not constrained. -/
def coreEq (a b : Row) : Prop :=
  a.txn = b.txn ∧ a.isDebit = b.isDebit ∧ a.nums = b.nums

/-- Date order on output records (all settled records carry parsed
dates). -/
def recDateLe (a b : OutRec Nat) : Prop :=
  a.date.getD 0 ≤ b.date.getD 0

/-- Shape of the records of one settlement group, in output order:
either no record carries the id, or the group is one or more attached
candidate records in ascending date order followed by the record of the
selected debit, which is debit-typed. -/
def GroupShape (ts : List Txn) (grp : List (OutRec Nat)) : Prop :=
  grp = [] ∨ ∃ cs dR, grp = cs ++ [dR] ∧ cs ≠ [] ∧
    (inputRow ts dR.src).isDebit = true ∧ List.Sorted recDateLe cs

/-- The invariant maintained by the settlement phase of a run over input
`ts` (settlement ids are attempt indices). -/
structure Inv (ts : List Txn) (st : St Nat) : Prop where
  len : st.rows.length = ts.length
  core : ∀ j, coreEq (rowAt st.rows j) (inputRow ts j)
  srcLt : ∀ r ∈ st.results, r.src < ts.length
  me : ∀ j, (rowAt st.rows j).matched = true ↔
    ∃ r ∈ st.results, r.src = j ∧ r.settlement ≠ none
  allSome : ∀ r ∈ st.results, r.settlement ≠ none
  centres : ∀ r ∈ st.results,
    (inputRow ts r.src).txn.cost = r.cost ∧
      (inputRow ts r.src).txn.profit = r.profit
  dates : ∀ r ∈ st.results, (inputRow ts r.src).txn.date ≠ none
  ctrB : ∀ r ∈ st.results, ∀ k, r.settlement = some k → k < st.ctr
  grpC : ∀ r1 ∈ st.results, ∀ r2 ∈ st.results, r1.settlement = r2.settlement →
    r1.settlement ≠ none → r1.cost = r2.cost ∧ r1.profit = r2.profit
  shape : ∀ k, GroupShape ts (st.results.filter fun r => r.settlement == some k)

theorem rowAt_set (rows : List Row) (i : Nat) (r : Row) (j : Nat) :
    rowAt (rows.set i r) j =
      if i = j ∧ j < rows.length then r else rowAt rows j := by
  induction rows generalizing i j with
  | nil => simp [rowAt]
  | cons a l ih =>
    cases i with
    | zero =>
      cases j with
      | zero => simp [rowAt]
      | succ j => simp [rowAt]
    | succ i =>
      cases j with
      | zero => simp [rowAt]
      | succ j =>
        have h1 : rowAt ((a :: l).set (i + 1) r) (j + 1) = rowAt (l.set i r) j := by
          simp [rowAt]
        rw [h1, ih]
        have h2 : (i + 1 = j + 1 ∧ j + 1 < (a :: l).length) ↔
            (i = j ∧ j < l.length) := by
          simp only [List.length_cons]
          omega
        by_cases h : i = j ∧ j < l.length
        · rw [if_pos h, if_pos (h2.mpr h)]
        · rw [if_neg h, if_neg (fun hc => h (h2.mp hc))]
          simp [rowAt]

theorem length_markRead (i : Nat) (rows : List Row) :
    (markRead i rows).length = rows.length := by
  simp [markRead]

theorem length_markMatched (i : Nat) (rows : List Row) :
    (markMatched i rows).length = rows.length := by
  simp [markMatched]

theorem rowAt_markRead (i : Nat) (rows : List Row) (j : Nat) :
    rowAt (markRead i rows) j =
      if i = j ∧ j < rows.length then { rowAt rows j with read := true }
      else rowAt rows j := by
  rw [markRead, rowAt_set]
  by_cases h : i = j ∧ j < rows.length
  · rw [if_pos h, if_pos h, h.1]
  · rw [if_neg h, if_neg h]

theorem rowAt_markMatched (i : Nat) (rows : List Row) (j : Nat) :
    rowAt (markMatched i rows) j =
      if i = j ∧ j < rows.length then { rowAt rows j with matched := true }
      else rowAt rows j := by
  rw [markMatched, rowAt_set]
  by_cases h : i = j ∧ j < rows.length
  · rw [if_pos h, if_pos h, h.1]
  · rw [if_neg h, if_neg h]

theorem coreEq_refl (a : Row) : coreEq a a :=
  ⟨rfl, rfl, rfl⟩

theorem coreEq_trans {a b c : Row} (h1 : coreEq a b) (h2 : coreEq b c) :
    coreEq a c :=
  ⟨h1.1.trans h2.1, h1.2.1.trans h2.2.1, h1.2.2.trans h2.2.2⟩

theorem coreEq_markRead (i : Nat) (rows : List Row) (j : Nat) :
    coreEq (rowAt (markRead i rows) j) (rowAt rows j) := by
  rw [rowAt_markRead]
  by_cases h : i = j ∧ j < rows.length
  · rw [if_pos h]; exact ⟨rfl, rfl, rfl⟩
  · rw [if_neg h]; exact coreEq_refl _

theorem coreEq_markMatched (i : Nat) (rows : List Row) (j : Nat) :
    coreEq (rowAt (markMatched i rows) j) (rowAt rows j) := by
  rw [rowAt_markMatched]
  by_cases h : i = j ∧ j < rows.length
  · rw [if_pos h]; exact ⟨rfl, rfl, rfl⟩
  · rw [if_neg h]; exact coreEq_refl _

theorem read_markMatched (i : Nat) (rows : List Row) (j : Nat) :
    (rowAt (markMatched i rows) j).read = (rowAt rows j).read := by
  rw [rowAt_markMatched]
  by_cases h : i = j ∧ j < rows.length
  · rw [if_pos h]
  · rw [if_neg h]

theorem matched_markMatched (i : Nat) (rows : List Row) (j : Nat) :
    (rowAt (markMatched i rows) j).matched = true ↔
      (rowAt rows j).matched = true ∨ (i = j ∧ j < rows.length) := by
  rw [rowAt_markMatched]
  by_cases h : i = j ∧ j < rows.length
  · rw [if_pos h]; simp [h]
  · rw [if_neg h]; simp [h]

theorem matched_markRead (i : Nat) (rows : List Row) (j : Nat) :
    (rowAt (markRead i rows) j).matched = (rowAt rows j).matched := by
  rw [rowAt_markRead]
  by_cases h : i = j ∧ j < rows.length
  · rw [if_pos h]
  · rw [if_neg h]

theorem length_foldMark (A : List Nat) (rows : List Row) :
    (foldMark A rows).length = rows.length := by
  induction A generalizing rows with
  | nil => rfl
  | cons a A ih =>
    have h : foldMark (a :: A) rows = foldMark A (markMatched a rows) := rfl
    rw [h, ih, length_markMatched]

theorem coreEq_foldMark (A : List Nat) (rows : List Row) (j : Nat) :
    coreEq (rowAt (foldMark A rows) j) (rowAt rows j) := by
  induction A generalizing rows with
  | nil => exact coreEq_refl _
  | cons a A ih =>
    exact coreEq_trans (ih (markMatched a rows)) (coreEq_markMatched a rows j)

theorem read_foldMark (A : List Nat) (rows : List Row) (j : Nat) :
    (rowAt (foldMark A rows) j).read = (rowAt rows j).read := by
  induction A generalizing rows with
  | nil => rfl
  | cons a A ih =>
    rw [foldMark, List.foldl_cons, ← foldMark, ih, read_markMatched]

theorem matched_foldMark (A : List Nat) (rows : List Row) (j : Nat) :
    (rowAt (foldMark A rows) j).matched = true ↔
      (rowAt rows j).matched = true ∨ (j ∈ A ∧ j < rows.length) := by
  induction A generalizing rows with
  | nil => simp [foldMark]
  | cons a A ih =>
    rw [foldMark, List.foldl_cons, ← foldMark, ih, matched_markMatched,
      length_markMatched]
    constructor
    · rintro (⟨h | ⟨rfl, hl⟩⟩ | ⟨hA, hl⟩)
      · exact Or.inl h
      · exact Or.inr ⟨List.mem_cons_self _ _, hl⟩
      · exact Or.inr ⟨List.mem_cons_of_mem _ hA, hl⟩
    · rintro (h | ⟨hm, hl⟩)
      · exact Or.inl (Or.inl h)
      · rcases List.mem_cons.mp hm with rfl | hA
        · exact Or.inl (Or.inr ⟨rfl, hl⟩)
        · exact Or.inr ⟨hA, hl⟩

theorem matchLoop_spec (T : Int) (acct cc pc : String) (gid : α) (debit : Row)
    (snap : List Row) (cands : List Nat) (rows : List Row)
    (out : List (OutRec α)) (ad : Bool) (bidx : Option Nat) :
    matchLoop T acct cc pc gid debit snap cands rows out ad bidx =
      (foldMark (cands.filter (qual T debit snap)) rows,
       out ++ (cands.filter (qual T debit snap)).map
         (fun j => mkCandRec acct cc pc gid (rowAt snap j) j),
       ad || !(cands.filter (qual T debit snap)).isEmpty) := by
  induction cands generalizing rows out ad bidx with
  | nil => simp [matchLoop, foldMark]
  | cons j rest ih =>
    by_cases hm : (rowAt snap j).matched
    · have hq : qual T debit snap j = false := by simp [qual, hm]
      rw [matchLoop]
      simp only [hm, if_true]
      rw [ih, List.filter_cons, hq]
      simp
    · by_cases hw : dateWithin debit.txn.date (rowAt snap j).txn.date T
      · by_cases ho : 0 < overlapScore debit.nums (rowAt snap j).nums
        · have hq : qual T debit snap j = true := by
            simp [qual, hm, hw, ho]
          have hsu : scoreUpdate (overlapScore debit.nums (rowAt snap j).nums)
              bidx j = (overlapScore debit.nums (rowAt snap j).nums, some j) := by
            rw [scoreUpdate, if_pos ho]
          simp only [Bool.not_eq_true] at hm
          rw [matchLoop]
          simp only [hm, hw, hsu, Bool.not_true, Bool.false_eq_true, if_false,
            if_true, Option.isSome_some, Option.getD_some, Bool.true_and,
            decide_eq_true_eq]
          rw [if_pos ho, ih, List.filter_cons, hq]
          have hf : foldMark (j :: List.filter (qual T debit snap) rest) rows =
              foldMark (List.filter (qual T debit snap) rest)
                (markMatched j rows) := rfl
          simp [hf, List.append_assoc]
        · have hq : qual T debit snap j = false := by
            simp [qual, ho]
          have hsu : scoreUpdate (overlapScore debit.nums (rowAt snap j).nums)
              bidx j = (0, bidx) := by
            rw [scoreUpdate, if_neg ho]
          rw [matchLoop]
          simp only [Bool.not_eq_true] at hm
          simp only [hm, hw, Bool.not_true, if_false, if_true, hsu]
          have hcond : (bidx.isSome && decide (0 < (0, bidx).1)) = false := by
            simp
          rw [if_neg (by simp [hcond]), ih, List.filter_cons, hq]
          simp
      · have hq : qual T debit snap j = false := by
          simp [qual, hw]
        rw [matchLoop]
        simp only [Bool.not_eq_true] at hm
        simp only [hm, hw, Bool.not_false, if_true, if_false]
        rw [ih, List.filter_cons, hq]
        simp

theorem dateWithin_some {dd cd : Option Int} {T : Int}
    (h : dateWithin dd cd T = true) : dd ≠ none ∧ cd ≠ none := by
  cases dd <;> cases cd <;> simp [dateWithin] at h ⊢

theorem candOK_iff (rows : List Row) (T : Int) (debit : Row) (j : Nat) :
    candOK rows T debit j = true ↔
      (rowAt rows j).read = false ∧ (rowAt rows j).matched = false ∧
      (rowAt rows j).txn.cost = debit.txn.cost ∧
      (rowAt rows j).txn.profit = debit.txn.profit ∧
      dateWithin debit.txn.date (rowAt rows j).txn.date T = true := by
  simp [candOK, Bool.and_eq_true, Bool.not_eq_true', and_assoc]

theorem mem_candidateIdxs {rows : List Row} {T : Int} {debit : Row} {j : Nat} :
    j ∈ candidateIdxs rows T debit ↔
      j < rows.length ∧ candOK rows T debit j = true := by
  unfold candidateIdxs
  rw [List.mem_insertionSort, List.mem_filter, List.mem_range]

theorem candidateIdxs_sorted (rows : List Row) (T : Int) (debit : Row) :
    List.Sorted (fun j k => dateKey rows j ≤ dateKey rows k)
      (candidateIdxs rows T debit) := by
  haveI h1 : IsTotal Nat (fun j k => dateKey rows j ≤ dateKey rows k) :=
    ⟨fun a b => Int.le_total _ _⟩
  haveI h2 : IsTrans Nat (fun j k => dateKey rows j ≤ dateKey rows k) :=
    ⟨fun a b c hab hbc => le_trans hab hbc⟩
  exact List.sorted_insertionSort _ _

theorem pickMin_mem (cond : Nat → Nat → Bool) :
    ∀ (l : List Nat) (b : Option Nat) (i : Nat),
      l.foldl (fun b j =>
        match b with
        | none => some j
        | some k => if cond k j then some k else some j) b = some i →
      b = some i ∨ i ∈ l := by
  intro l
  induction l with
  | nil => intro b i h; exact Or.inl h
  | cons j rest ih =>
    intro b i h
    rw [List.foldl_cons] at h
    rcases ih _ i h with h2 | h2
    · cases b with
      | none =>
        refine Or.inr ?_
        have : j = i := Option.some.inj h2
        rw [this]
        exact List.mem_cons_self _ _
      | some k =>
        by_cases hc : cond k j = true
        · simp only [hc, if_true] at h2
          exact Or.inl h2
        · simp only [hc, if_false] at h2
          refine Or.inr ?_
          have : j = i := Option.some.inj h2
          rw [this]
          exact List.mem_cons_self _ _
    · exact Or.inr (List.mem_cons_of_mem _ h2)

theorem selectDebit_spec {rows : List Row} {acct : String} {i : Nat}
    (h : selectDebit rows acct = some i) :
    i < rows.length ∧ (rowAt rows i).isDebit = true ∧
      (rowAt rows i).txn.account = acct ∧ (rowAt rows i).read = false := by
  unfold selectDebit at h
  rcases pickMin_mem
      (fun k j => debitDateLe (rowAt rows k).txn.date (rowAt rows j).txn.date)
      _ _ _ h with h2 | h2
  · cases h2
  · rw [List.mem_filter, List.mem_range] at h2
    obtain ⟨hlt, hb⟩ := h2
    simp only [Bool.and_eq_true, Bool.not_eq_true', beq_iff_eq] at hb
    exact ⟨hlt, hb.1.1, hb.1.2, hb.2⟩

theorem mem_debitCands {T : Int} {rows : List Row} {i j : Nat}
    (h : j ∈ debitCands T rows i) :
    j < rows.length ∧ j ≠ i ∧
      (rowAt rows j).read = false ∧ (rowAt rows j).matched = false ∧
      (rowAt rows j).txn.cost = (rowAt rows i).txn.cost ∧
      (rowAt rows j).txn.profit = (rowAt rows i).txn.profit ∧
      dateWithin (rowAt rows i).txn.date (rowAt rows j).txn.date T = true := by
  rw [debitCands, mem_candidateIdxs, length_markRead] at h
  obtain ⟨hlt, hok⟩ := h
  rw [candOK_iff] at hok
  obtain ⟨hr, hm, hc, hp, hw⟩ := hok
  have hne : ¬(i = j ∧ j < rows.length) := by
    intro hij
    rw [rowAt_markRead, if_pos hij] at hr
    simp at hr
  have heq : rowAt (markRead i rows) j = rowAt rows j := by
    rw [rowAt_markRead, if_neg hne]
  rw [heq] at hr hm hc hp hw
  exact ⟨hlt, fun hji => hne ⟨hji.symm, hlt⟩, hr, hm, hc, hp, hw⟩

theorem mem_attachedOf {T : Int} {rows : List Row} {i j : Nat}
    (h : j ∈ attachedOf T rows i) :
    j ∈ debitCands T rows i ∧
      0 < overlapScore (rowAt rows i).nums (rowAt rows j).nums := by
  rw [attachedOf, List.mem_filter] at h
  obtain ⟨hc, hq⟩ := h
  have hfacts := mem_debitCands hc
  have hne : ¬(i = j ∧ j < rows.length) :=
    fun hij => hfacts.2.1 hij.1.symm
  have heq : rowAt (markRead i rows) j = rowAt rows j := by
    rw [rowAt_markRead, if_neg hne]
  rw [qual, heq] at hq
  simp only [Bool.and_eq_true, decide_eq_true_eq] at hq
  exact ⟨hc, hq.2⟩

theorem attachedOf_cases {T : Int} {rows : List Row} {i j : Nat}
    (hc : j ∈ debitCands T rows i) :
    j ∈ attachedOf T rows i ↔
      0 < overlapScore (rowAt rows i).nums (rowAt rows j).nums := by
  constructor
  · exact fun h => (mem_attachedOf h).2
  · intro ho
    rw [attachedOf, List.mem_filter]
    refine ⟨hc, ?_⟩
    have hfacts := mem_debitCands hc
    have hne : ¬(i = j ∧ j < rows.length) :=
      fun hij => hfacts.2.1 hij.1.symm
    have heq : rowAt (markRead i rows) j = rowAt rows j := by
      rw [rowAt_markRead, if_neg hne]
    rw [qual, heq]
    simp only [Bool.and_eq_true, decide_eq_true_eq]
    exact ⟨⟨by simp [hfacts.2.2.2.1], hfacts.2.2.2.2.2.2⟩, ho⟩

theorem processDebit_spec (g : Nat → α) (T : Int) (acct : String) (i : Nat)
    (st : St α) :
    processDebit g T acct i st =
      ⟨rowsAfter T st.rows i,
       st.results ++ blockOf g T acct i st.rows st.ctr,
       st.ctr + 1⟩ := by
  simp only [processDebit]
  rw [matchLoop_spec]
  simp only [Bool.false_or]
  rw [rowsAfter, blockOf, attachedOf]
  cases hA : ((debitCands T st.rows i).filter
      (qual T (rowAt st.rows i) (markRead i st.rows))).isEmpty
  · simp [hA]
  · simp [hA]

theorem length_rowsAfter (T : Int) (rows : List Row) (i : Nat) :
    (rowsAfter T rows i).length = rows.length := by
  rw [rowsAfter]
  cases h : (attachedOf T rows i).isEmpty
  · simp [h, length_markMatched, length_foldMark, length_markRead]
  · simp [h, length_foldMark, length_markRead]

theorem coreEq_rowsAfter (T : Int) (rows : List Row) (i j : Nat) :
    coreEq (rowAt (rowsAfter T rows i) j) (rowAt rows j) := by
  rw [rowsAfter]
  have hbase : coreEq (rowAt (foldMark (attachedOf T rows i) (markRead i rows)) j)
      (rowAt rows j) :=
    coreEq_trans (coreEq_foldMark _ _ _) (coreEq_markRead _ _ _)
  cases h : (attachedOf T rows i).isEmpty
  · simp only [h, Bool.false_eq_true, if_false]
    exact coreEq_trans (coreEq_markMatched _ _ _) hbase
  · simp only [h, if_true]
    exact hbase

theorem matched_rowsAfter (T : Int) (rows : List Row) (i : Nat)
    (hilt : i < rows.length) (j : Nat) :
    (rowAt (rowsAfter T rows i) j).matched = true ↔
      (rowAt rows j).matched = true ∨ (j ∈ attachedOf T rows i ∧ j < rows.length) ∨
        ((attachedOf T rows i).isEmpty = false ∧ j = i) := by
  rw [rowsAfter]
  have hbase : (rowAt (foldMark (attachedOf T rows i) (markRead i rows)) j).matched
      = true ↔ (rowAt rows j).matched = true ∨
        (j ∈ attachedOf T rows i ∧ j < rows.length) := by
    rw [matched_foldMark, length_markRead, matched_markRead]
  cases h : (attachedOf T rows i).isEmpty
  · rw [if_neg (show ¬(false = true) from Bool.false_ne_true)]
    rw [matched_markMatched, hbase, length_foldMark, length_markRead]
    constructor
    · rintro ((hm | hm) | ⟨hij, _⟩)
      · exact Or.inl hm
      · exact Or.inr (Or.inl hm)
      · exact Or.inr (Or.inr ⟨rfl, hij.symm⟩)
    · rintro (hm | ⟨hm, hl⟩ | ⟨_, rfl⟩)
      · exact Or.inl (Or.inl hm)
      · exact Or.inl (Or.inr ⟨hm, hl⟩)
      · exact Or.inr ⟨rfl, hilt⟩
  · rw [if_pos rfl, hbase]
    constructor
    · rintro (hm | hm)
      · exact Or.inl hm
      · exact Or.inr (Or.inl hm)
    · rintro (hm | hm | ⟨hfalse, _⟩)
      · exact Or.inl hm
      · exact Or.inr hm
      · cases hfalse

theorem mem_blockOf {g : Nat → α} {T : Int} {acct : String} {i : Nat}
    {rows : List Row} {ctr : Nat} {r : OutRec α}
    (h : r ∈ blockOf g T acct i rows ctr) :
    r.settlement = some (g ctr) ∧
      r.cost = (rowAt rows i).txn.cost ∧
      r.profit = (rowAt rows i).txn.profit ∧
      (r.src ∈ attachedOf T rows i ∨
        ((attachedOf T rows i).isEmpty = false ∧ r.src = i)) := by
  rw [blockOf] at h
  rcases List.mem_append.mp h with h1 | h1
  · obtain ⟨j, hj, rfl⟩ := List.mem_map.mp h1
    exact ⟨rfl, rfl, rfl, Or.inl hj⟩
  · cases hA : (attachedOf T rows i).isEmpty
    · rw [hA] at h1
      simp only [Bool.false_eq_true, if_false, List.mem_singleton] at h1
      subst h1
      exact ⟨rfl, rfl, rfl, Or.inr ⟨rfl, rfl⟩⟩
    · rw [hA] at h1
      simp at h1

theorem candRec_mem_blockOf (g : Nat → α) (T : Int) (acct : String) (i : Nat)
    (rows : List Row) (ctr : Nat) {j : Nat} (hj : j ∈ attachedOf T rows i) :
    mkCandRec acct (rowAt rows i).txn.cost (rowAt rows i).txn.profit
      (g ctr) (rowAt (markRead i rows) j) j ∈ blockOf g T acct i rows ctr := by
  rw [blockOf]
  exact List.mem_append_left _ (List.mem_map.mpr ⟨j, hj, rfl⟩)

theorem debitRec_mem_blockOf (g : Nat → α) (T : Int) (acct : String) (i : Nat)
    (rows : List Row) (ctr : Nat) (hne : (attachedOf T rows i).isEmpty = false) :
    mkDebitRec acct (rowAt rows i).txn.cost (rowAt rows i).txn.profit
      (g ctr) (rowAt rows i) i ∈ blockOf g T acct i rows ctr := by
  rw [blockOf, hne]
  simp

theorem exists_mem_of_isEmpty_false {l : List Nat}
    (h : l.isEmpty = false) : ∃ x, x ∈ l := by
  cases l with
  | nil => cases h
  | cons a t => exact ⟨a, List.mem_cons_self _ _⟩

theorem inv_processDebit {ts : List Txn} {st : St Nat} {acct : String} {i : Nat}
    (hI : Inv ts st) (hsel : selectDebit st.rows acct = some i) (T : Int) :
    Inv ts (processDebit (fun n => n) T acct i st) := by
  obtain ⟨hilt, hidbt, hiacc, hird⟩ := selectDebit_spec hsel
  rw [processDebit_spec]
  have hlen := hI.len
  have hAmem : ∀ j ∈ attachedOf T st.rows i, j < st.rows.length ∧ j ≠ i ∧
      (rowAt st.rows j).txn.cost = (rowAt st.rows i).txn.cost ∧
      (rowAt st.rows j).txn.profit = (rowAt st.rows i).txn.profit ∧
      (rowAt st.rows j).txn.date ≠ none ∧
      (rowAt st.rows j).matched = false := by
    intro j hj
    obtain ⟨hc, _⟩ := mem_attachedOf hj
    obtain ⟨h1, h2, _, h4, h5, h6, h7⟩ := mem_debitCands hc
    exact ⟨h1, h2, h5, h6, (dateWithin_some h7).2, h4⟩
  have hIdate : (attachedOf T st.rows i).isEmpty = false →
      (rowAt st.rows i).txn.date ≠ none := by
    intro hne
    obtain ⟨j, hj⟩ := exists_mem_of_isEmpty_false hne
    obtain ⟨hc, _⟩ := mem_attachedOf hj
    exact (dateWithin_some (mem_debitCands hc).2.2.2.2.2.2).1
  have hblock : ∀ r ∈ blockOf (fun n => n) T acct i st.rows st.ctr,
      r.settlement = some st.ctr ∧
        r.cost = (rowAt st.rows i).txn.cost ∧
        r.profit = (rowAt st.rows i).txn.profit ∧
        (r.src ∈ attachedOf T st.rows i ∨
          ((attachedOf T st.rows i).isEmpty = false ∧ r.src = i)) :=
    fun r hr => mem_blockOf hr
  refine { len := ?_, core := ?_, srcLt := ?_, me := ?_, allSome := ?_,
           centres := ?_, dates := ?_, ctrB := ?_, grpC := ?_, shape := ?_ }
  · show (rowsAfter T st.rows i).length = ts.length
    rw [length_rowsAfter]; exact hlen
  · intro j
    exact coreEq_trans (coreEq_rowsAfter T st.rows i j) (hI.core j)
  · intro r hr
    rcases List.mem_append.mp hr with h1 | h1
    · exact hI.srcLt r h1
    · rcases (hblock r h1).2.2.2 with hs | hs
      · have := (hAmem _ hs).1; omega
      · rw [hs.2]; omega
  · intro j
    show (rowAt (rowsAfter T st.rows i) j).matched = true ↔ _
    rw [matched_rowsAfter T st.rows i hilt j, hI.me j]
    constructor
    · rintro (⟨r, hr, hrs⟩ | ⟨hjA, hjl⟩ | ⟨hne, hji⟩)
      · exact ⟨r, List.mem_append_left _ hr, hrs⟩
      · exact ⟨_, List.mem_append_right _
          (candRec_mem_blockOf (fun n => n) T acct i st.rows st.ctr hjA),
          rfl, by simp [mkCandRec]⟩
      · subst hji
        exact ⟨_, List.mem_append_right _
          (debitRec_mem_blockOf (fun n => n) T acct _ st.rows st.ctr hne),
          rfl, by simp [mkDebitRec]⟩
    · rintro ⟨r, hr, hsrc, hsome⟩
      rcases List.mem_append.mp hr with h1 | h1
      · exact Or.inl ⟨r, h1, hsrc, hsome⟩
      · rcases (hblock r h1).2.2.2 with hs | hs
        · exact Or.inr (Or.inl ⟨hsrc ▸ hs, hsrc ▸ (hAmem _ hs).1⟩)
        · exact Or.inr (Or.inr ⟨hs.1, by rw [← hsrc]; exact hs.2⟩)
  · intro r hr
    rcases List.mem_append.mp hr with h1 | h1
    · exact hI.allSome r h1
    · rw [(hblock r h1).1]; simp
  · intro r hr
    rcases List.mem_append.mp hr with h1 | h1
    · exact hI.centres r h1
    · obtain ⟨hset, hcost, hprof, hsrc⟩ := hblock r h1
      rcases hsrc with hs | hs
      · obtain ⟨_, _, hc, hp, _, _⟩ := hAmem _ hs
        constructor
        · rw [hcost, ← hc, ← (hI.core r.src).1]
        · rw [hprof, ← hp, ← (hI.core r.src).1]
      · constructor
        · rw [hcost, hs.2, ← (hI.core i).1]
        · rw [hprof, hs.2, ← (hI.core i).1]
  · intro r hr
    rcases List.mem_append.mp hr with h1 | h1
    · exact hI.dates r h1
    · obtain ⟨hset, hcost, hprof, hsrc⟩ := hblock r h1
      rcases hsrc with hs | hs
      · have hd := (hAmem _ hs).2.2.2.2.1
        rw [← (hI.core r.src).1]
        exact hd
      · rw [hs.2, ← (hI.core i).1]
        exact hIdate hs.1
  · intro r hr k hk
    show k < st.ctr + 1
    rcases List.mem_append.mp hr with h1 | h1
    · exact Nat.lt_succ_of_lt (hI.ctrB r h1 k hk)
    · have hs := (hblock r h1).1
      have hkc : st.ctr = k := Option.some.inj (hs.symm.trans hk)
      omega
  · intro r1 hr1 r2 hr2 heq hne
    rcases List.mem_append.mp hr1 with h1 | h1 <;>
      rcases List.mem_append.mp hr2 with h2 | h2
    · exact hI.grpC r1 h1 r2 h2 heq hne
    · exfalso
      have hs2 := (hblock r2 h2).1
      have := hI.ctrB r1 h1 st.ctr (heq.trans hs2)
      omega
    · exfalso
      have hs1 := (hblock r1 h1).1
      have := hI.ctrB r2 h2 st.ctr (heq.symm.trans hs1)
      omega
    · obtain ⟨_, hc1, hp1, _⟩ := hblock r1 h1
      obtain ⟨_, hc2, hp2, _⟩ := hblock r2 h2
      exact ⟨hc1.trans hc2.symm, hp1.trans hp2.symm⟩
  · intro k
    show GroupShape ts ((st.results ++
      blockOf (fun n => n) T acct i st.rows st.ctr).filter
        fun r => r.settlement == some k)
    rw [List.filter_append]
    by_cases hk : k = st.ctr
    · subst hk
      have hof : st.results.filter
          (fun r => r.settlement == some st.ctr) = [] := by
        refine List.filter_eq_nil_iff.mpr ?_
        intro r hr hb
        rw [beq_iff_eq] at hb
        have := hI.ctrB r hr st.ctr hb
        omega
      have hbf : (blockOf (fun n => n) T acct i st.rows st.ctr).filter
          (fun r => r.settlement == some st.ctr) =
            blockOf (fun n => n) T acct i st.rows st.ctr := by
        refine List.filter_eq_self.mpr ?_
        intro r hr
        simp [(hblock r hr).1]
      rw [hof, hbf, List.nil_append, blockOf]
      cases hA : (attachedOf T st.rows i).isEmpty
      · rw [if_neg (show ¬(false = true) from Bool.false_ne_true)]
        refine Or.inr ⟨_, _, rfl, ?_, ?_, ?_⟩
        · intro hmapnil
          rcases exists_mem_of_isEmpty_false hA with ⟨x, hx⟩
          rw [List.map_eq_nil_iff] at hmapnil
          rw [hmapnil] at hx
          cases hx
        · show (inputRow ts (mkDebitRec acct (rowAt st.rows i).txn.cost
            (rowAt st.rows i).txn.profit ((fun n => n) st.ctr)
            (rowAt st.rows i) i).src).isDebit = true
          show (inputRow ts i).isDebit = true
          rw [← (hI.core i).2.1]
          exact hidbt
        · have hs0 : List.Sorted
              (fun j k => dateKey (markRead i st.rows) j ≤
                dateKey (markRead i st.rows) k) (debitCands T st.rows i) :=
            candidateIdxs_sorted _ _ _
          have hs1 : List.Pairwise
              (fun j k => dateKey (markRead i st.rows) j ≤
                dateKey (markRead i st.rows) k) (attachedOf T st.rows i) :=
            List.Pairwise.filter _ hs0
          exact List.pairwise_map.mpr hs1
      · have hAnil : attachedOf T st.rows i = [] := by
          cases hA2 : attachedOf T st.rows i
          · rfl
          · rw [hA2] at hA; cases hA
        rw [if_pos rfl, hAnil]
        exact Or.inl rfl
    · have hbf : (blockOf (fun n => n) T acct i st.rows st.ctr).filter
          (fun r => r.settlement == some k) = [] := by
        refine List.filter_eq_nil_iff.mpr ?_
        intro r hr hb
        rw [beq_iff_eq] at hb
        exact hk (Option.some.inj (hb.symm.trans (hblock r hr).1))
      rw [hbf, List.append_nil]
      exact hI.shape k

theorem inv_accountLoop {ts : List Txn} (T : Int) (acct : String) :
    ∀ (fuel : Nat) (st : St Nat), Inv ts st →
      Inv ts (accountLoop (fun n => n) T acct fuel st) := by
  intro fuel
  induction fuel with
  | zero => intro st h; exact h
  | succ fuel ih =>
    intro st h
    rw [accountLoop]
    cases hsel : selectDebit st.rows acct with
    | none => exact h
    | some i => exact ih _ (inv_processDebit h hsel T)

theorem inv_settleLedger {ts : List Txn} {st : St Nat} (hI : Inv ts st)
    (T : Int) : Inv ts (settleLedger (fun n => n) T st) := by
  rw [settleLedger]
  generalize accountsOf st.rows = accts
  induction accts generalizing st with
  | nil => exact hI
  | cons a rest ih =>
    rw [List.foldl_cons]
    exact ih (inv_accountLoop T a _ _ hI)

theorem inputRow_eq (ts : List Txn) (j : Nat) (h : j < ts.length) :
    inputRow ts j = loadRow (ts.getD j default) := by
  unfold inputRow rowAt loadLedger
  induction ts generalizing j with
  | nil => cases h
  | cons t rest ih =>
    cases j with
    | zero => rfl
    | succ j =>
      simp only [List.map_cons, List.getD_cons_succ]
      exact ih j (Nat.lt_of_succ_lt_succ h)

theorem inputRow_default (ts : List Txn) (j : Nat) (h : ¬ j < ts.length) :
    inputRow ts j = default := by
  unfold inputRow rowAt
  apply List.getD_eq_default
  rw [loadLedger, List.length_map]
  omega

theorem inputRow_matched (ts : List Txn) (j : Nat) :
    (inputRow ts j).matched = false := by
  by_cases h : j < ts.length
  · rw [inputRow_eq ts j h]; rfl
  · rw [inputRow_default ts j h]; rfl

theorem inv_init (ts : List Txn) : Inv ts ⟨loadLedger ts, [], 0⟩ := by
  refine { len := ?_, core := ?_, srcLt := ?_, me := ?_, allSome := ?_,
           centres := ?_, dates := ?_, ctrB := ?_, grpC := ?_, shape := ?_ }
  · simp [loadLedger]
  · intro j; exact coreEq_refl _
  · intro r hr; cases hr
  · intro j
    constructor
    · intro hm
      have h2 : (rowAt (loadLedger ts) j).matched = false := inputRow_matched ts j
      rw [h2] at hm; cases hm
    · rintro ⟨r, hr, _⟩; cases hr
  · intro r hr; cases hr
  · intro r hr; cases hr
  · intro r hr; cases hr
  · intro r hr k hk; cases hr
  · intro r1 hr1 r2 hr2 heq hne; cases hr1
  · intro k; exact Or.inl rfl

theorem inv_finalSt (T : Int) (ts : List Txn) : Inv ts (finalSt T ts) :=
  inv_settleLedger (inv_init ts) T

theorem run_decomp (T : Int) (ts : List Txn) :
    run T ts = (finalSt T ts).results ++ unsPart (finalSt T ts) := rfl

theorem mem_unsPart {st : St Nat} {r : OutRec Nat} (h : r ∈ unsPart st) :
    r.settlement = none ∧ r.src < st.rows.length ∧
      (rowAt st.rows r.src).matched = false := by
  rw [unsPart] at h
  obtain ⟨j, hj, rfl⟩ := List.mem_map.mp h
  rw [List.mem_filter, List.mem_range] at hj
  refine ⟨rfl, hj.1, ?_⟩
  have := hj.2
  simp only [Bool.not_eq_true'] at this
  exact this

theorem unsPart_mem {st : St Nat} {j : Nat} (hj : j < st.rows.length)
    (hm : (rowAt st.rows j).matched = false) :
    mkUnsRec (rowAt st.rows j) j ∈ unsPart st := by
  rw [unsPart]
  refine List.mem_map.mpr ⟨j, ?_, rfl⟩
  rw [List.mem_filter, List.mem_range]
  exact ⟨hj, by simp [hm]⟩

theorem run_some_iff (T : Int) (ts : List Txn) (j : Nat) :
    (∃ r ∈ run T ts, r.src = j ∧ r.settlement ≠ none) ↔
      (rowAt (finalSt T ts).rows j).matched = true := by
  rw [run_decomp]
  constructor
  · rintro ⟨r, hr, hsrc, hsome⟩
    rcases List.mem_append.mp hr with h1 | h1
    · exact ((inv_finalSt T ts).me j).mpr ⟨r, h1, hsrc, hsome⟩
    · exact absurd (mem_unsPart h1).1 hsome
  · intro hm
    obtain ⟨r, hr, hsrc, hsome⟩ := ((inv_finalSt T ts).me j).mp hm
    exact ⟨r, List.mem_append_left _ hr, hsrc, hsome⟩

theorem run_none_iff (T : Int) (ts : List Txn) (j : Nat) (hj : j < ts.length) :
    (∃ r ∈ run T ts, r.src = j ∧ r.settlement = none) ↔
      (rowAt (finalSt T ts).rows j).matched = false := by
  rw [run_decomp]
  constructor
  · rintro ⟨r, hr, hsrc, hnone⟩
    rcases List.mem_append.mp hr with h1 | h1
    · exact absurd hnone ((inv_finalSt T ts).allSome r h1)
    · have := (mem_unsPart h1).2.2
      rw [hsrc] at this
      exact this
  · intro hm
    refine ⟨mkUnsRec (rowAt (finalSt T ts).rows j) j,
      List.mem_append_right _ (unsPart_mem ?_ hm), rfl, rfl⟩
    rw [(inv_finalSt T ts).len]
    exact hj

theorem blockOf_mapG (g : Nat → α) (T : Int) (acct : String) (i : Nat)
    (rows : List Row) (ctr : Nat) :
    blockOf g T acct i rows ctr =
      (blockOf (fun n => n) T acct i rows ctr).map (mapG g) := by
  rw [blockOf, blockOf, List.map_append, List.map_map]
  congr 1
  cases h : (attachedOf T rows i).isEmpty <;> rfl

theorem processDebit_mapG (g : Nat → α) (T : Int) (acct : String) (i : Nat)
    (sN : St Nat) :
    processDebit g T acct i ⟨sN.rows, sN.results.map (mapG g), sN.ctr⟩ =
      ⟨(processDebit (fun n => n) T acct i sN).rows,
       (processDebit (fun n => n) T acct i sN).results.map (mapG g),
       (processDebit (fun n => n) T acct i sN).ctr⟩ := by
  rw [processDebit_spec, processDebit_spec]
  simp only [List.map_append]
  rw [blockOf_mapG]

theorem accountLoop_mapG (g : Nat → α) (T : Int) (acct : String) :
    ∀ (fuel : Nat) (sN : St Nat),
      accountLoop g T acct fuel ⟨sN.rows, sN.results.map (mapG g), sN.ctr⟩ =
        ⟨(accountLoop (fun n => n) T acct fuel sN).rows,
         (accountLoop (fun n => n) T acct fuel sN).results.map (mapG g),
         (accountLoop (fun n => n) T acct fuel sN).ctr⟩ := by
  intro fuel
  induction fuel with
  | zero => intro sN; rfl
  | succ fuel ih =>
    intro sN
    rw [accountLoop, accountLoop]
    cases hsel : selectDebit sN.rows acct with
    | none => rfl
    | some i =>
      show accountLoop g T acct fuel
          (processDebit g T acct i ⟨sN.rows, sN.results.map (mapG g), sN.ctr⟩) =
        ⟨(accountLoop (fun n => n) T acct fuel
            (processDebit (fun n => n) T acct i sN)).rows,
         (accountLoop (fun n => n) T acct fuel
            (processDebit (fun n => n) T acct i sN)).results.map (mapG g),
         (accountLoop (fun n => n) T acct fuel
            (processDebit (fun n => n) T acct i sN)).ctr⟩
      rw [processDebit_mapG, ih]

theorem foldl_accounts_mapG (g : Nat → α) (T : Int) :
    ∀ (accts : List String) (sN : St Nat),
      accts.foldl (fun s acct => accountLoop g T acct s.rows.length s)
        ⟨sN.rows, sN.results.map (mapG g), sN.ctr⟩ =
      ⟨(accts.foldl
          (fun s acct => accountLoop (fun n => n) T acct s.rows.length s)
          sN).rows,
       (accts.foldl
          (fun s acct => accountLoop (fun n => n) T acct s.rows.length s)
          sN).results.map (mapG g),
       (accts.foldl
          (fun s acct => accountLoop (fun n => n) T acct s.rows.length s)
          sN).ctr⟩ := by
  intro accts
  induction accts with
  | nil => intro sN; rfl
  | cons a rest ih =>
    intro sN
    rw [List.foldl_cons, List.foldl_cons]
    rw [show (accountLoop g T a
        (⟨sN.rows, sN.results.map (mapG g), sN.ctr⟩ : St α).rows.length
        ⟨sN.rows, sN.results.map (mapG g), sN.ctr⟩ : St α) =
      accountLoop g T a sN.rows.length
        ⟨sN.rows, sN.results.map (mapG g), sN.ctr⟩ from rfl]
    rw [accountLoop_mapG, ih]

theorem settleRun_mapG (g : Nat → α) (T : Int) (ts : List Txn) :
    settleRun g T ts = (run T ts).map (mapG g) := by
  rw [settleRun, run, settleRun, settleLedger, settleLedger]
  rw [show (⟨loadLedger ts, [], 0⟩ : St α) =
    ⟨(⟨loadLedger ts, [], 0⟩ : St Nat).rows,
     (⟨loadLedger ts, [], 0⟩ : St Nat).results.map (mapG g),
     (⟨loadLedger ts, [], 0⟩ : St Nat).ctr⟩ from rfl]
  rw [foldl_accounts_mapG]
  rw [writeUnsettled, writeUnsettled]
  simp only [List.map_append, List.map_map]
  rfl

theorem eraseGuid_mapG (g : Nat → α) (r : OutRec Nat) :
    eraseGuid (mapG g r) = eraseGuid r := by
  cases r with
  | mk j v d a c p ds am s src => cases s <;> rfl

theorem groupOf_map (g : Nat → α) (l : List (OutRec Nat)) (i : Nat) :
    groupOf (l.map (mapG g)) i = (groupOf l i).map g := by
  rw [groupOf, groupOf, List.getElem?_map]
  cases l[i]? with
  | none => rfl
  | some r => cases r.settlement <;> rfl

theorem sameGroup_map_iff (g : Nat → α) (hg : Function.Injective g)
    (l : List (OutRec Nat)) (i j : Nat) :
    sameGroup (l.map (mapG g)) i j ↔ sameGroup l i j := by
  unfold sameGroup
  rw [groupOf_map, groupOf_map]
  constructor
  · rintro ⟨hne, heq⟩
    refine ⟨fun h => hne (by rw [h]; rfl), Option.map_injective hg heq⟩
  · rintro ⟨hne, heq⟩
    refine ⟨?_, by rw [heq]⟩
    cases h : groupOf l i with
    | none => exact absurd h hne
    | some x => simp

theorem leadsList_iff (a b : List Char) :
    leadsList a b = true ↔ a <+: b := by
  induction a generalizing b with
  | nil =>
    rw [show leadsList [] b = true from rfl]
    simp
  | cons x xs ih =>
    cases b with
    | nil =>
      rw [show leadsList (x :: xs) [] = false from rfl]
      simp
    | cons y ys =>
      rw [show leadsList (x :: xs) (y :: ys) = (x == y && leadsList xs ys)
        from rfl]
      rw [Bool.and_eq_true, beq_iff_eq, ih, List.cons_prefix_cons]

theorem subStr_iff (a b : List Char) :
    subStr a b = true ↔ a <:+: b := by
  induction b with
  | nil =>
    show leadsList a [] = true ↔ _
    rw [leadsList_iff]
    simp
  | cons y ys ih =>
    show (leadsList a (y :: ys) || subStr a ys) = true ↔ _
    rw [Bool.or_eq_true, leadsList_iff, ih, List.infix_cons_iff]

theorem isSubstrOf_iff (a b : String) :
    isSubstrOf a b = true ↔ a.toList <:+: b.toList :=
  subStr_iff a.toList b.toList

theorem length_flatMap_eq (l : List String) (f : String → List String) :
    (l.flatMap f).length = (l.map fun a => (f a).length).sum := by
  induction l with
  | nil => rfl
  | cons a t ih => simp [List.flatMap_cons, ih]

theorem dedup_toFinset_eq (l : List String) : l.dedup.toFinset = l.toFinset := by
  ext a
  simp [List.mem_dedup]

theorem filter_length_eq_card (B : List String) (a : String) :
    ((B.dedup).filter fun b => isSubstrOf a b || isSubstrOf b a).length =
      (B.toFinset.filter fun b => SubRel a b).card := by
  have hfn : ((B.dedup).filter
      fun b => isSubstrOf a b || isSubstrOf b a).Nodup :=
    (List.nodup_dedup B).filter _
  calc ((B.dedup).filter fun b => isSubstrOf a b || isSubstrOf b a).length
      = (((B.dedup).filter
          fun b => isSubstrOf a b || isSubstrOf b a).toFinset).card := by
        rw [List.card_toFinset, List.Nodup.dedup hfn]
    _ = (B.toFinset.filter fun b => SubRel a b).card := by
        rw [List.toFinset_filter, dedup_toFinset_eq]
        congr 1
        refine Finset.filter_congr fun b _ => ?_
        simp [SubRel]

theorem overlapScore_eq_card (A B : List String) :
    overlapScore A B =
      ((A.toFinset ×ˢ B.toFinset).filter fun q => SubRel q.1 q.2).card := by
  rw [overlapScore, length_flatMap_eq]
  rw [← List.sum_toFinset _ (List.nodup_dedup A), dedup_toFinset_eq]
  rw [Finset.card_filter, Finset.sum_product]
  refine Finset.sum_congr rfl fun a _ => ?_
  rw [← Finset.card_filter]
  exact filter_length_eq_card B a

/-- Claim C1, counterexample: on a two-row ledger whose debit belongs to
account `A` while the only other transaction belongs to account `B`
(equal centres, overlapping description numbers, dates in the window),
the run attaches the account-`B` transaction to the account-`A` debit's
group: two records share one settlement group although their source rows
carry different `MainAccount` values, so a debit is settled against a
transaction of a different account. -/
theorem claim1_cex :
    ∃ r1 ∈ run 3 [cexA, cexB], ∃ r2 ∈ run 3 [cexA, cexB],
      r1.settlement = r2.settlement ∧ r1.settlement ≠ none ∧
      ([cexA, cexB].getD r2.src default).amount < 0 ∧
      ([cexA, cexB].getD r1.src default).account ≠
        ([cexA, cexB].getD r2.src default).account := by
  decide

/-- Claim C1, amended: the candidate filter constrains cost centre,
profit centre and date window but not `MainAccount`, so what holds is:
every settled record's source row has exactly the cost and profit centre
the emitted record carries (the debit's centres), and any two rows
settled in the same group have equal cost and profit centres — same
account is not guaranteed. -/
theorem claim1_thm (T : Int) (ts : List Txn) :
    (∀ r ∈ run T ts, r.settlement ≠ none →
      (ts.getD r.src default).cost = r.cost ∧
      (ts.getD r.src default).profit = r.profit) ∧
    (∀ r1 ∈ run T ts, ∀ r2 ∈ run T ts,
      r1.settlement = r2.settlement → r1.settlement ≠ none →
      (ts.getD r1.src default).cost = (ts.getD r2.src default).cost ∧
      (ts.getD r1.src default).profit = (ts.getD r2.src default).profit) := by
  have hfield : ∀ r ∈ (finalSt T ts).results,
      (ts.getD r.src default).cost = r.cost ∧
      (ts.getD r.src default).profit = r.profit := by
    intro r hr
    have hlt := (inv_finalSt T ts).srcLt r hr
    have hc := (inv_finalSt T ts).centres r hr
    rw [inputRow_eq ts r.src hlt] at hc
    exact hc
  have hmem : ∀ r ∈ run T ts, r.settlement ≠ none →
      r ∈ (finalSt T ts).results := by
    intro r hr hne
    rw [run_decomp] at hr
    rcases List.mem_append.mp hr with h1 | h1
    · exact h1
    · exact absurd (mem_unsPart h1).1 hne
  constructor
  · intro r hr hne
    exact hfield r (hmem r hr hne)
  · intro r1 hr1 r2 hr2 heq hne
    have h1 := hfield r1 (hmem r1 hr1 hne)
    have h2 := hfield r2 (hmem r2 hr2 (heq ▸ hne))
    have hg := (inv_finalSt T ts).grpC r1 (hmem r1 hr1 hne) r2
      (hmem r2 hr2 (heq ▸ hne)) heq hne
    exact ⟨h1.1.trans (hg.1.trans h2.1.symm),
      h1.2.trans (hg.2.trans h2.2.symm)⟩

/-- Witness for the amended C1 at the concrete two-row input: the first
output record of the run satisfies the centre property. -/
theorem claim1_witness :
    ([cexA, cexB].getD ((run 3 [cexA, cexB]).getD 0 default).src
        default).cost = ((run 3 [cexA, cexB]).getD 0 default).cost ∧
    ([cexA, cexB].getD ((run 3 [cexA, cexB]).getD 0 default).src
        default).profit = ((run 3 [cexA, cexB]).getD 0 default).profit :=
  (claim1_thm 3 [cexA, cexB]).1 _ (by decide) (by decide)

/-- Claim C2, counterexample: with two debits and one credit, the first
settlement group (id 0) consists of exactly the two rows 1 and 0, both
debit-typed (negative amounts) — a group with two debits and no credit,
refuting both "exactly one debit" and "at least one credit". -/
theorem claim2_cex :
    ((run 3 [cexD1, cexD2, cexC]).filter
        fun r => r.settlement == some 0).map (fun r => r.src) = [1, 0] ∧
    ([cexD1, cexD2, cexC].getD 0 default).amount < 0 ∧
    ([cexD1, cexD2, cexC].getD 1 default).amount < 0 := by
  decide

/-- Claim C2, amended: every emitted settlement group consists of one or
more attached candidate records followed by the record of the selected
debit (a debit-typed row); attached candidates are not filtered by type,
so they may themselves be debit-typed and the group need not contain any
credit; a debit attempt that attaches no candidate emits no record with
a group id. -/
theorem claim2_thm (T : Int) (ts : List Txn) (k : Nat) :
    (run T ts).filter (fun r => r.settlement == some k) = [] ∨
    ∃ cs dR, (run T ts).filter (fun r => r.settlement == some k) =
        cs ++ [dR] ∧ cs ≠ [] ∧ (ts.getD dR.src default).amount < 0 := by
  have huns : (unsPart (finalSt T ts)).filter
      (fun r => r.settlement == some k) = [] := by
    refine List.filter_eq_nil_iff.mpr ?_
    intro r hr hb
    rw [beq_iff_eq, (mem_unsPart hr).1] at hb
    cases hb
  rw [run_decomp, List.filter_append, huns, List.append_nil]
  rcases (inv_finalSt T ts).shape k with h | ⟨cs, dR, heq, hne, hdbt, _⟩
  · exact Or.inl h
  · refine Or.inr ⟨cs, dR, heq, hne, ?_⟩
    have hdR : dR ∈ (finalSt T ts).results :=
      List.mem_of_mem_filter
        (heq ▸ List.mem_append_right cs (List.mem_singleton.mpr rfl))
    have hlt := (inv_finalSt T ts).srcLt dR hdR
    rw [inputRow_eq ts dR.src hlt] at hdbt
    exact of_decide_eq_true hdbt

/-- Claim C3, counterexample: row 1 (a debit matched as a candidate of
row 0's group) is later selected as a debit itself and re-emitted: the
run's output holds row 1 once under settlement group 0 and once under
settlement group 1, so a matched transaction is emitted again under a
second group id. -/
theorem claim3_cex :
    ((run 3 [cexD1, cexD2, cexC]).getD 0 default).src =
      ((run 3 [cexD1, cexD2, cexC]).getD 3 default).src ∧
    ((run 3 [cexD1, cexD2, cexC]).getD 0 default).settlement = some 0 ∧
    ((run 3 [cexD1, cexD2, cexC]).getD 3 default).settlement = some 1 ∧
    (run 3 [cexD1, cexD2, cexC]).length = 4 := by
  decide

/-- Claim C3, amended: a matched transaction never re-enters any
candidate set (the candidate filter requires the matched flag to be
false), so it is never re-attached as a candidate; but debit selection
checks only the read flag, so a debit row already matched as another
debit's candidate can still be selected and re-emitted under a fresh
group id. -/
theorem claim3_thm (rows : List Row) (T : Int) (debit : Row) (j : Nat)
    (h : j ∈ candidateIdxs rows T debit) :
    (rowAt rows j).matched = false := by
  rw [mem_candidateIdxs] at h
  exact ((candOK_iff rows T debit j).mp h.2).2.1

/-- Witness for the amended C3: row 1 of the concrete ledger is in the
candidate set of row 0's attempt, hence unmatched at that point. -/
theorem claim3_witness :
    (rowAt (markRead 0 (loadLedger [cexD1, cexD2, cexC])) 1).matched =
      false :=
  claim3_thm (markRead 0 (loadLedger [cexD1, cexD2, cexC])) 3
    (rowAt (loadLedger [cexD1, cexD2, cexC]) 0) 1 (by decide)

/-- Claim C4 (confirmed): for every input row, the run emits it with a
non-empty settlement id exactly when it does not emit it with an empty
one (the two categories are disjoint and cover the row), every input row
appears in the output, and every output record points back into the
input. -/
theorem claim4_thm (T : Int) (ts : List Txn) (j : Nat) (hj : j < ts.length) :
    ((∃ r ∈ run T ts, r.src = j ∧ r.settlement ≠ none) ↔
      ¬ ∃ r ∈ run T ts, r.src = j ∧ r.settlement = none) ∧
    (∃ r ∈ run T ts, r.src = j) ∧
    (∀ r ∈ run T ts, r.src < ts.length) := by
  have h1 := run_some_iff T ts j
  have h2 := run_none_iff T ts j hj
  refine ⟨?_, ?_, ?_⟩
  · rw [h1, h2]
    cases (rowAt (finalSt T ts).rows j).matched <;> simp
  · by_cases hm : (rowAt (finalSt T ts).rows j).matched = true
    · obtain ⟨r, hr, hsrc, _⟩ := h1.mpr hm
      exact ⟨r, hr, hsrc⟩
    · have hm2 : (rowAt (finalSt T ts).rows j).matched = false := by
        cases hx : (rowAt (finalSt T ts).rows j).matched
        · rfl
        · exact absurd hx hm
      obtain ⟨r, hr, hsrc, _⟩ := h2.mpr hm2
      exact ⟨r, hr, hsrc⟩
  · intro r hr
    rw [run_decomp] at hr
    rcases List.mem_append.mp hr with hm | hm
    · exact (inv_finalSt T ts).srcLt r hm
    · have := (mem_unsPart hm).2.1
      have hlen := (inv_finalSt T ts).len
      omega

/-- Witness for C4 at a one-row input. -/
theorem claim4_witness :
    ((∃ r ∈ run 3 [cexSelf], r.src = 0 ∧ r.settlement ≠ none) ↔
      ¬ ∃ r ∈ run 3 [cexSelf], r.src = 0 ∧ r.settlement = none) ∧
    (∃ r ∈ run 3 [cexSelf], r.src = 0) ∧
    (∀ r ∈ run 3 [cexSelf], r.src < [cexSelf].length) :=
  claim4_thm 3 [cexSelf] 0 (by decide)

/-- Claim C5, counterexample: the selected debit's own row is NOT in the
candidate set built for it, although it passes the matched, centre and
window conditions against itself — the debit is marked read (line 66)
before the filter runs (line 76), so its row fails `Read == False`.  The
claim's "has not yet been marked read, so [it] is included" is false. -/
theorem claim5_cex :
    0 ∉ debitCands 3 (loadLedger [cexSelf]) 0 ∧
    (rowAt (loadLedger [cexSelf]) 0).matched = false ∧
    (rowAt (loadLedger [cexSelf]) 0).read = false ∧
    dateWithin (rowAt (loadLedger [cexSelf]) 0).txn.date
      (rowAt (loadLedger [cexSelf]) 0).txn.date 3 = true := by
  decide

/-- Claim C5, amended: the selected debit is marked read before its
candidate filter is evaluated, so its own row never satisfies the
filter's `read == false` condition and is never part of its own
candidate set. -/
theorem claim5_thm (T : Int) (rows : List Row) (i : Nat)
    (h : i < rows.length) : i ∉ debitCands T rows i := by
  intro hmem
  rw [debitCands, mem_candidateIdxs, length_markRead] at hmem
  obtain ⟨hlt, hok⟩ := hmem
  have hread := ((candOK_iff _ T _ i).mp hok).1
  rw [rowAt_markRead, if_pos ⟨rfl, h⟩] at hread
  cases hread

/-- Witness for the amended C5. -/
theorem claim5_witness : 0 ∉ debitCands 3 (loadLedger [cexA, cexB]) 0 :=
  claim5_thm 3 (loadLedger [cexA, cexB]) 0 (by decide)

/-- Claim C6 (confirmed): the overlap score equals the number of ordered
pairs drawn from the two deduplicated token sets related by substring
containment in either direction (equality included), and the loop's
best-pair update makes the attach condition hold exactly when the
current overlap is strictly positive — there is no magnitude
threshold. -/
theorem claim6_thm (A B : List String) :
    overlapScore A B =
      ((A.toFinset ×ˢ B.toFinset).filter fun q => SubRel q.1 q.2).card ∧
    (∀ a b : String, isSubstrOf a b = true ↔ a.toList <:+: b.toList) ∧
    (∀ (overlap : Nat) (bidx : Option Nat) (j : Nat),
      ((scoreUpdate overlap bidx j).2.isSome = true ∧
        0 < (scoreUpdate overlap bidx j).1) ↔ 0 < overlap) := by
  refine ⟨overlapScore_eq_card A B, isSubstrOf_iff, ?_⟩
  intro overlap bidx j
  rw [scoreUpdate]
  by_cases ho : 0 < overlap
  · rw [if_pos ho]
    simp [ho]
  · rw [if_neg ho]
    simp [ho]

/-- Claim C7 (confirmed): in one scoring pass the emitted records are
exactly one record per qualifying candidate (unmatched in the snapshot,
inside the window, positive overlap), in candidate order and all under
the current group id; exactly those candidates are marked matched; the
best-so-far state never suppresses a later positive-scoring candidate,
since the appended list is a pointwise filter of the candidate list. -/
theorem claim7_thm {α : Type} (T : Int) (acct cc pc : String) (gid : α)
    (debit : Row) (snap : List Row) (cands : List Nat) (rows : List Row) :
    (matchLoop T acct cc pc gid debit snap cands rows [] false none).2.1 =
      (cands.filter (qual T debit snap)).map
        (fun j => mkCandRec acct cc pc gid (rowAt snap j) j) ∧
    (matchLoop T acct cc pc gid debit snap cands rows [] false none).2.2 =
      !(cands.filter (qual T debit snap)).isEmpty ∧
    ∀ j : Nat,
      (rowAt (matchLoop T acct cc pc gid debit snap cands rows [] false
        none).1 j).matched = true ↔
      ((rowAt rows j).matched = true ∨
        (j ∈ cands.filter (qual T debit snap) ∧ j < rows.length)) := by
  rw [matchLoop_spec]
  refine ⟨by simp, by simp, ?_⟩
  intro j
  exact matched_foldMark _ rows j

/-- Claim C8 (confirmed): a row whose date failed to parse is never
emitted with a settlement group id — it can never pass a date-window
comparison, neither as a candidate nor as a debit whose window is built
from its own date — and the run emits it exactly as unsettled (empty
group id). -/
theorem claim8_thm (T : Int) (ts : List Txn) (j : Nat) (h1 : j < ts.length)
    (h2 : (ts.getD j default).date = none) :
    (∀ r ∈ run T ts, r.src = j → r.settlement = none) ∧
    ∃ r ∈ run T ts, r.src = j ∧ r.settlement = none := by
  have hdate : (inputRow ts j).txn.date = none := by
    rw [inputRow_eq ts j h1]
    exact h2
  constructor
  · intro r hr hsrc
    rw [run_decomp] at hr
    rcases List.mem_append.mp hr with hm | hm
    · exact absurd
        (show (inputRow ts r.src).txn.date = none by rw [hsrc]; exact hdate)
        ((inv_finalSt T ts).dates r hm)
    · exact (mem_unsPart hm).1
  · have hm : (rowAt (finalSt T ts).rows j).matched = false := by
      cases hx : (rowAt (finalSt T ts).rows j).matched
      · rfl
      · obtain ⟨r, hr, hsrc, hsome⟩ := ((inv_finalSt T ts).me j).mp hx
        exact absurd
          (show (inputRow ts r.src).txn.date = none by
            rw [hsrc]; exact hdate)
          ((inv_finalSt T ts).dates r hr)
    exact (run_none_iff T ts j h1).mpr hm

/-- Witness for C8: a one-credit ledger whose only row has an invalid
date ends with that row unsettled. -/
theorem claim8_witness :
    (∀ r ∈ run 3 [cexNoDate], r.src = 0 → r.settlement = none) ∧
    ∃ r ∈ run 3 [cexNoDate], r.src = 0 ∧ r.settlement = none :=
  claim8_thm 3 [cexNoDate] 0 (by decide) (by decide)

/-- Claim C9 (confirmed): modelling the per-attempt `uuid4` draw as an
arbitrary injective stream of identifiers indexed by the attempt
counter, two runs on the same input and tolerance produce the same
output rows up to the identifier values (same order, same fields) and
the same grouping relation between output positions; hence grouping and
ordering are a deterministic function of input and tolerance. -/
theorem claim9_thm {α β : Type} (g₁ : Nat → α) (g₂ : Nat → β)
    (h₁ : Function.Injective g₁) (h₂ : Function.Injective g₂)
    (T : Int) (ts : List Txn) :
    (settleRun g₁ T ts).map eraseGuid = (settleRun g₂ T ts).map eraseGuid ∧
    ∀ i j : Nat, sameGroup (settleRun g₁ T ts) i j ↔
      sameGroup (settleRun g₂ T ts) i j := by
  constructor
  · rw [settleRun_mapG g₁, settleRun_mapG g₂, List.map_map, List.map_map]
    refine List.map_congr_left fun r _ => ?_
    show eraseGuid (mapG g₁ r) = eraseGuid (mapG g₂ r)
    rw [eraseGuid_mapG, eraseGuid_mapG]
  · intro i j
    rw [settleRun_mapG g₁, settleRun_mapG g₂,
      sameGroup_map_iff g₁ h₁, sameGroup_map_iff g₂ h₂]

/-- Witness for C9 with the identity and successor identifier
streams. -/
theorem claim9_witness :
    ((settleRun (fun n => n) 3 [cexA, cexB]).map eraseGuid =
      (settleRun Nat.succ 3 [cexA, cexB]).map eraseGuid) ∧
    ∀ i j : Nat, sameGroup (settleRun (fun n => n) 3 [cexA, cexB]) i j ↔
      sameGroup (settleRun Nat.succ 3 [cexA, cexB]) i j :=
  claim9_thm (fun n => n) Nat.succ (fun _ _ h => h)
    (fun _ _ h => Nat.succ_injective h) 3 [cexA, cexB]

/-- Claim C10 (confirmed): within every emitted settlement group, the
attached candidates' records come first, in ascending (non-decreasing)
date order — inherited from the date-sorted candidate list — and the
selected debit's record is the last record of the group in the output
sequence; the debit row has a negative amount. -/
theorem claim10_thm (T : Int) (ts : List Txn) (k : Nat) :
    (run T ts).filter (fun r => r.settlement == some k) = [] ∨
    ∃ cs dR, (run T ts).filter (fun r => r.settlement == some k) =
        cs ++ [dR] ∧ List.Sorted recDateLe cs ∧
      (ts.getD dR.src default).amount < 0 := by
  have huns : (unsPart (finalSt T ts)).filter
      (fun r => r.settlement == some k) = [] := by
    refine List.filter_eq_nil_iff.mpr ?_
    intro r hr hb
    rw [beq_iff_eq, (mem_unsPart hr).1] at hb
    cases hb
  rw [run_decomp, List.filter_append, huns, List.append_nil]
  rcases (inv_finalSt T ts).shape k with h | ⟨cs, dR, heq, hne, hdbt, hsort⟩
  · exact Or.inl h
  · refine Or.inr ⟨cs, dR, heq, hsort, ?_⟩
    have hdR : dR ∈ (finalSt T ts).results :=
      List.mem_of_mem_filter
        (heq ▸ List.mem_append_right cs (List.mem_singleton.mpr rfl))
    have hlt := (inv_finalSt T ts).srcLt dR hdR
    rw [inputRow_eq ts dR.src hlt] at hdbt
    exact of_decide_eq_true hdbt

end Ledger
